import Mathlib

/-!
Shallow embedding of the translation-state core of
hphp/runtime/vm/jit/irgen-state.cpp: the IRGS constructor and the
snapshot renderer (the function named show in the source), together with
the data it consumes.  The external collaborators (IRBuilder queries,
function metadata, bytecode unit pretty printing) appear as fields of
explicit record types; their behaviour at render time is an arbitrary
valuation of those fields, since the renderer only reads them.
-/

set_option maxRecDepth 4000

namespace IRGenState

/-- Modelled from the spec: the JIT type lattice is external to the source
under study (the Type class); the spec only needs a bounded lattice of
stack-element types with a decidable subtype order, a maximally generic
stack-element type (TStkElem), a bottom (TBottom) and a boxed-cell cone
(TBoxedCell).  We embed a small concrete fragment exhibiting all of these,
with strict subtyping defined, as in the source, as non-strict subtyping
plus inequality. -/
inductive Ty where
  | bot
  | int
  | dbl
  | cell
  | boxedInt
  | boxedDbl
  | boxedCell
  | stkElem
deriving DecidableEq

/-- Subtype order on the embedded lattice fragment (TBottom below
everything, TStkElem above everything, Int and Dbl below Cell, BoxedInt
and BoxedDbl below BoxedCell). -/
def Ty.le : Ty → Ty → Bool
  | .bot, _ => true
  | _, .stkElem => true
  | .int, .int => true
  | .int, .cell => true
  | .dbl, .dbl => true
  | .dbl, .cell => true
  | .cell, .cell => true
  | .boxedInt, .boxedInt => true
  | .boxedInt, .boxedCell => true
  | .boxedDbl, .boxedDbl => true
  | .boxedDbl, .boxedCell => true
  | .boxedCell, .boxedCell => true
  | _, _ => false

/-- Strict subtyping: subtype and different (the operator < of the Type
class). -/
def Ty.lt (a b : Ty) : Bool := a.le b && a != b

/-- Textual description of a type (Type::toString in the source; the
exact spellings are irrelevant to every claim, only their distinctness
per type matters). -/
def Ty.descr : Ty → String
  | .bot => "Bottom"
  | .int => "Int"
  | .dbl => "Dbl"
  | .cell => "Cell"
  | .boxedInt => "BoxedInt"
  | .boxedDbl => "BoxedDbl"
  | .boxedCell => "BoxedCell"
  | .stkElem => "StkElem"

/-- A known concrete SSA value: its type and the rendering of its defining
instruction (inst()->toString() in the source). -/
structure Value where
  ty : Ty
  instStr : String
deriving DecidableEq

/-- One entry of the FPI (call-setup region) table of a function:
frame-relative offset of the reserved ActRec, bytecode offset of the
initiating push instruction, and the index of the parent region in the
table, -1 when there is none (FPIEnt in the source). -/
structure FPIEnt where
  fpOff : Int
  fpushOff : Nat
  parentIndex : Int
deriving DecidableEq

/-- Function metadata consumed by the renderer (the Func collaborator):
local count, per-frame slot count, maximum stack cell count, the FPI
table, and the innermost active call-setup region for a bytecode offset
(findFPI, modelled as a query field since Func is external to the source
under study). -/
structure Func where
  numLocals : Nat
  numSlotsInFrame : Nat
  maxStackCells : Nat
  fpitab : List FPIEnt
  findFPI : Nat → Option FPIEnt

/-- Bytecode unit queries used by the renderer: length of the instruction
at an offset (instrLen at unit.at in the source) and the pretty-printed
rendering of a bytecode range under the fixed options noLineNumbers,
indent 0, noFuncs (external collaborators, modelled as query fields). -/
structure HHUnit where
  instrLenAt : Nat → Nat
  prettyPrintRange : Nat → Nat → String

/-- Render-time query interface of the IRBuilder: synchronized
stack-pointer level, per-stack-offset known type / known value, and the
per-local known value, known type, predicted type and predicted inner
type. Stack offsets are counted from the top of the stack, offset 0 being
the top (BCSPOffset in the source; the conversion offsetFromIRSP is a
bijective coordinate change internal to the builder and is absorbed into
the indexing of these fields). -/
structure IRBuilderSt where
  syncedSpLevel : Int
  stackType : Nat → Ty
  stackValue : Nat → Option Value
  localValue : Nat → Option Value
  localType : Nat → Ty
  predictedLocalType : Nat → Ty
  predictedInnerType : Nat → Ty

/-- The render-time view of the translation state: resumed-context flag,
current bytecode offset, function metadata, bytecode unit, builder
queries, and the predicted type of a stack cell
(irgen::predictedTypeFromStack, an external query over the state). -/
structure IRGS where
  resumed : Bool
  bcOff : Nat
  curFunc : Func
  curUnit : HHUnit
  irb : IRBuilderSt
  predictedStackType : Nat → Ty

/-- One rendered line of a snapshot section: the printed index and the
printed text (the presentation-only column padding of the source is not
part of the contract and is not modelled). -/
structure Line where
  idx : Int
  text : String
deriving DecidableEq

/-- Modelled from the spec: the fixed frame-metadata cell width
kNumActRecCells, a constant defined outside the source under study; every
call-setup region reserves exactly this many cells. -/
def kNumActRecCells : Nat := 3

/-- The text of a single non-region stack cell, exactly as computed in
the body of the stack loop of show: the literal unknown when the known
type is TStkElem, else the known value rendering when a value is known,
else the known type rendering; followed by a predict suffix when the
predicted type is a strict subtype of the known type. -/
def cellText (g : IRGS) (i : Nat) : String :=
  let stkTy := g.irb.stackType i
  let stkVal := g.irb.stackValue i
  let elemStr :=
    if stkTy = Ty.stkElem then "unknown"
    else
      match stkVal with
      | some v => v.instStr
      | none => stkTy.descr
  let predicted := g.predictedStackType i
  if Ty.lt predicted stkTy = true then
    elemStr ++ " (predict: " ++ predicted.descr ++ ")"
  else elemStr

/-- The label of a call-setup region, as built by the checkFpi lambda:
the fixed prefix, then the pretty-printed bytecode range of the push
instruction; the source asserts that the combined string ends in a
newline and erases that one final character, so the embedding returns
none (assertion failure) when the final character is not a newline. -/
def regionLabel (g : IRGS) (f : FPIEnt) : Option String :=
  let after := f.fpushOff + g.curUnit.instrLenAt f.fpushOff
  let msgStr := "ActRec from " ++ g.curUnit.prettyPrintRange f.fpushOff after
  if msgStr.data.getLast? = some '\n' then some ⟨msgStr.data.dropLast⟩
  else none

/-- Parent-region resolution after a region is consumed: index the FPI
table with the parent index when it is not -1, else no region (the
ternary at the end of the checkFpi lambda).  An in-range parent index is
a well-formedness obligation of the table; an out-of-range one yields
none here where the source would index out of bounds. -/
def fpiParent (fn : Func) (f : FPIEnt) : Option FPIEnt :=
  if f.parentIndex = -1 then none
  else fn.fpitab[f.parentIndex.toNat]?

/-- n successive calls of the elem lambda with one fixed string: each
call first emits a line indexed stackDepth minus the current walk
counter, then asserts the counter is still positive and decrements it.
Returns the emitted lines and the final counter, or none when the
assertion fails (the abort discards all output of the rendering). -/
def elemRepeat (sd : Int) (str : String) : Nat → Nat → Option (List Line × Nat)
  | 0, sp => some ([], sp)
  | n + 1, sp =>
    if sp = 0 then none
    else
      match elemRepeat sd str n (sp - 1) with
      | none => none
      | some (ls, sp') => some (⟨sd - (sp : Int), str⟩ :: ls, sp')

/-- The stack-section loop of show, fuel-indexed: at each iteration with
a positive remaining counter sp the source first asserts that the
top-relative index i is below the maximum stack cell count, then runs the
checkFpi lambda (consuming kNumActRecCells cells when the region under
consideration starts here and stepping to its parent), else renders the
single cell at i.  Each iteration strictly decreases sp, so fuel larger
than sp can never run out; exhausted fuel returns none. -/
def stackWalkF (g : IRGS) (fc sd : Int) : Nat → Nat → Nat → Option FPIEnt → Option (List Line)
  | 0, _, _, _ => none
  | _ + 1, 0, _, _ => some []
  | fuel + 1, sp + 1, i, fpi =>
    if g.curFunc.maxStackCells ≤ i then none
    else
      match fpi with
      | some f =>
        if ((sp + 1 : Nat) : Int) + fc = f.fpOff then
          match regionLabel g f with
          | none => none
          | some lbl =>
            match elemRepeat sd lbl kNumActRecCells (sp + 1) with
            | none => none
            | some (ls, sp') =>
              match stackWalkF g fc sd fuel sp' (i + kNumActRecCells)
                  (fpiParent g.curFunc f) with
              | none => none
              | some rest => some (ls ++ rest)
        else
          match stackWalkF g fc sd fuel sp (i + 1) (some f) with
          | none => none
          | some rest => some (⟨sd - ((sp + 1 : Nat) : Int), cellText g i⟩ :: rest)
      | none =>
        match stackWalkF g fc sd fuel sp (i + 1) none with
        | none => none
        | some rest => some (⟨sd - ((sp + 1 : Nat) : Int), cellText g i⟩ :: rest)

/-- The stack-section loop of show, entered with counter sp, top-relative
index i and region chain fpi; the fuel sp + 1 dominates the iteration
count. -/
def stackWalk (g : IRGS) (fc sd : Int) (sp i : Nat) (fpi : Option FPIEnt) :
    Option (List Line) :=
  stackWalkF g fc sd (sp + 1) sp i fpi

/-- Region-free rendering of sp cells starting at top-relative index i: a
derived description of the walk when no region is under consideration,
used to state that a missing parent link disables every later region
check. -/
def walkNone (g : IRGS) (sd : Int) : Nat → Nat → Option (List Line)
  | 0, _ => some []
  | sp + 1, i =>
    if g.curFunc.maxStackCells ≤ i then none
    else
      match walkNone g sd sp (i + 1) with
      | none => none
      | some rest => some (⟨sd - ((sp + 1 : Nat) : Int), cellText g i⟩ :: rest)

/-- The known type of a local slot as computed in the locals loop of
show: the type of the known value when a value is known, else the
builder local-type query. -/
def localTyOf (g : IRGS) (i : Nat) : Ty :=
  match g.irb.localValue i with
  | some v => v.ty
  | none => g.irb.localType i

/-- The text of one local slot, exactly as computed in the locals loop of
show: value rendering or type rendering, then a predict suffix when the
predicted local type is a strict subtype of the known type, then, when
the known type is below TBoxedCell, a predict-inner suffix when the
predicted inner type is not TBottom. -/
def localText (g : IRGS) (i : Nat) : String :=
  let localValue := g.irb.localValue i
  let localTy := localTyOf g i
  let str :=
    match localValue with
    | some v => v.instStr
    | none => localTy.descr
  let predicted := g.irb.predictedLocalType i
  let str :=
    if Ty.lt predicted localTy = true then
      str ++ " (predict: " ++ predicted.descr ++ ")"
    else str
  if Ty.le localTy Ty.boxedCell = true then
    let pred := g.irb.predictedInnerType i
    if pred ≠ Ty.bot then str ++ " (predict inner: " ++ pred.descr ++ ")"
    else str
  else str

/-- The base of a local-slot line before the predict-inner suffix: value
or type rendering plus the predict suffix. -/
def localBase (g : IRGS) (i : Nat) : String :=
  (match g.irb.localValue i with
   | some v => v.instStr
   | none => (localTyOf g i).descr) ++
  (if Ty.lt (g.irb.predictedLocalType i) (localTyOf g i) = true then
    " (predict: " ++ (g.irb.predictedLocalType i).descr ++ ")"
   else "")

/-- The locals section of show: one line per local index, printed index
equal to the index. -/
def localsLines (g : IRGS) : List Line :=
  (List.range g.curFunc.numLocals).map fun i => ⟨Int.ofNat i, localText g i⟩

/-- The frame-cell adjustment of show: zero in a resumable-frame context,
else the per-frame slot count of the function. -/
def frameCellsOf (g : IRGS) : Int :=
  if g.resumed then 0 else (g.curFunc.numSlotsInFrame : Int)

/-- The logical stack depth of show: synchronized stack-pointer level
minus the frame-cell adjustment. -/
def stackDepthOf (g : IRGS) : Int :=
  g.irb.syncedSpLevel - frameCellsOf g

/-- The snapshot renderer show: computes the frame-cell adjustment and
the stack depth, asserts the depth is not negative, walks the stack
section starting from the innermost region active at the current bytecode
offset, then renders the locals section.  Returns the stack lines and the
locals lines, or none when an assertion failed (the presentation-only
headers and borders are not modelled). -/
def showIRGS (g : IRGS) : Option (List Line × List Line) :=
  let fc := frameCellsOf g
  let sd := g.irb.syncedSpLevel - fc
  if sd < 0 then none
  else
    match stackWalk g fc sd sd.toNat 0 (g.curFunc.findFPI g.bcOff) with
    | none => none
    | some st => some (st, localsLines g)

/-- Source location of a translation request (SrcKey, external; only its
identity matters to the core). -/
structure SrcKey where
  id : Nat
deriving DecidableEq

/-- The translation context: source location, initial stack-pointer
offset, translation id and flags, read once at construction. -/
structure TransContext where
  srcKey : SrcKey
  initSpOffset : Int
  transID : Nat
  flags : Nat
deriving DecidableEq

/-- The bootstrap marker (BCMarker): source location, stack-pointer
offset, translation id and no parent frame pointer. -/
structure BCMarker where
  sk : SrcKey
  spOff : Int
  transID : Nat
  fp : Option Nat
deriving DecidableEq

/-- initial_marker from the source: the marker derived from a translation
context, with a null parent frame pointer. -/
def initial_marker (ctx : TransContext) : BCMarker :=
  { sk := ctx.srcKey, spOff := ctx.initSpOffset, transID := ctx.transID,
    fp := none }

/-- The two bootstrap definitions the constructor emits into the builder:
a define-frame-pointer taking no inputs, and a define-stack-pointer
recording an offset and taking a previously emitted definition (by id) as
its input (DefFP and DefSP with FPInvOffsetData in the source). -/
inductive Instr where
  | defFP
  | defSP (off : Int) (srcId : Nat)
deriving DecidableEq

/-- The mutable face of the IRBuilder seen by the constructor: the
current marker and the emitted definitions in order (the full builder is
external; the constructor only sets the marker and appends two
definitions). -/
structure TraceBuilder where
  marker : BCMarker
  instrs : List Instr
deriving DecidableEq

/-- irgen::gen as used by the constructor: append one definition and
return its id (its position in the emission order). -/
def genInstr (b : TraceBuilder) (ins : Instr) : Nat × TraceBuilder :=
  (b.instrs.length, { b with instrs := b.instrs ++ [ins] })

/-- The translation state right after construction: context, flags, the
builder trace and the bytecode-cursor stack. -/
structure IRGSBoot where
  context : TransContext
  transFlags : Nat
  irb : TraceBuilder
  bcStateStack : List SrcKey
deriving DecidableEq

/-- Modelled from the spec: irgen::updateMarker synchronizes the position
marker of the builder to the current state; on the freshly constructed
state this is the marker derived from the context. -/
def updateMarker (ctx : TransContext) (b : TraceBuilder) : TraceBuilder :=
  { b with marker := initial_marker ctx }

/-- The IRGS constructor: initialize the builder with the initial marker,
initialize the cursor stack with the context source location, synchronize
the marker, emit DefFP, then emit DefSP recording the initial
stack-pointer offset and taking the DefFP value as input. -/
def mkIRGS (ctx : TransContext) : IRGSBoot :=
  let irb0 : TraceBuilder := { marker := initial_marker ctx, instrs := [] }
  let irb1 := updateMarker ctx irb0
  let fp := genInstr irb1 Instr.defFP
  let irb2 := fp.2
  let frame := fp.1
  let irb3 := (genInstr irb2 (Instr.defSP ctx.initSpOffset frame)).2
  { context := ctx, transFlags := ctx.flags, irb := irb3,
    bcStateStack := [ctx.srcKey] }

/-! Concrete states used as witnesses and counterexamples. -/

/-- A plain three-cell, two-local state with no active call-setup region:
resumable context, synchronized level 3, Int on top of two Cells, every
stack prediction Int, every local a BoxedCell with inner prediction Int. -/
def envPlain : IRGS :=
  { resumed := true, bcOff := 0,
    curFunc :=
      { numLocals := 2, numSlotsInFrame := 5, maxStackCells := 10,
        fpitab := [], findFPI := fun _ => none },
    curUnit :=
      { instrLenAt := fun _ => 1,
        prettyPrintRange := fun _ _ => "FPushFuncD zork\n" },
    irb :=
      { syncedSpLevel := 3,
        stackType := fun i => if i = 0 then Ty.int else Ty.cell,
        stackValue := fun _ => none,
        localValue := fun _ => none,
        localType := fun _ => Ty.boxedCell,
        predictedLocalType := fun _ => Ty.boxedCell,
        predictedInnerType := fun _ => Ty.int },
    predictedStackType := fun _ => Ty.int }

/-- The label the pretty printer of envPlain and its variants yields for
any region after the final newline is erased. -/
def lblStr : String := "ActRec from FPushFuncD zork"

/-- A parentless region whose reserved ActRec sits at frame-relative
offset 3. -/
def fpiAt3 : FPIEnt := { fpOff := 3, fpushOff := 0, parentIndex := -1 }

/-- envPlain with fpiAt3 active at every bytecode offset: with stack
depth 3 and frame-cell adjustment 0 the region check of the source fires
at the very first iteration, where the walk counter is 3 and the
top-relative offset is 0. -/
def envRegion : IRGS :=
  { envPlain with
    curFunc := { envPlain.curFunc with findFPI := fun _ => some fpiAt3 } }

/-- A parentless outer region at frame-relative offset 5. -/
def outerFpi : FPIEnt := { fpOff := 5, fpushOff := 7, parentIndex := -1 }

/-- An inner region at frame-relative offset 8 whose parent is entry 0 of
the table (the outer region). -/
def innerFpi : FPIEnt := { fpOff := 8, fpushOff := 9, parentIndex := 0 }

/-- A depth-8 state with the nested regions: inner fires at counter 8,
its parent at counter 5, then two plain cells remain. -/
def envNested : IRGS :=
  { envPlain with
    curFunc :=
      { numLocals := 0, numSlotsInFrame := 0, maxStackCells := 20,
        fpitab := [outerFpi], findFPI := fun _ => some innerFpi },
    irb := { envPlain.irb with syncedSpLevel := 8 },
    resumed := false }

/-- A parentless region at frame-relative offset 2. -/
def fpiAt2 : FPIEnt := { fpOff := 2, fpushOff := 0, parentIndex := -1 }

/-- A depth-2 state whose active region fires at counter 2 but needs 3
cells: the walk underflows mid-region. -/
def envUnder : IRGS :=
  { envPlain with
    curFunc := { envPlain.curFunc with findFPI := fun _ => some fpiAt2 },
    irb := { envPlain.irb with syncedSpLevel := 2 } }

/-- A state whose logical stack depth is negative: not resumed, five
frame slots, synchronized level 3. -/
def envNeg : IRGS := { envPlain with resumed := false }

/-- The stack section rendered for envPlain. -/
def outPlainStack : List Line :=
  [⟨0, "Int"⟩, ⟨1, "Cell (predict: Int)"⟩, ⟨2, "Cell (predict: Int)"⟩]

/-- The locals section rendered for envPlain. -/
def outPlainLocals : List Line :=
  [⟨0, "BoxedCell (predict inner: Int)"⟩, ⟨1, "BoxedCell (predict inner: Int)"⟩]

/-! Helper lemmas about the embedded renderer. -/

theorem str_append_nil (s : String) : s ++ "" = s := String.append_empty s

/-- Closed form of elemRepeat: n calls of elem succeed exactly when the
walk counter is at least n, emit lines indexed consecutively from
sd - sp, and leave the counter decreased by n. -/
theorem elemRepeat_eq (sd : Int) (str : String) :
    ∀ (n sp : Nat), elemRepeat sd str n sp =
      if n ≤ sp then
        some (((List.range n).map fun j =>
          Line.mk (sd - (sp : Int) + Int.ofNat j) str), sp - n)
      else none := by
  intro n
  induction n with
  | zero => intro sp; simp [elemRepeat]
  | succ n ih =>
    intro sp
    cases sp with
    | zero => simp [elemRepeat]
    | succ m =>
      have step : elemRepeat sd str (n + 1) (m + 1) =
          match elemRepeat sd str n m with
          | none => none
          | some (ls, sp') =>
              some (Line.mk (sd - ((m + 1 : Nat) : Int)) str :: ls, sp') := by
        simp [elemRepeat]
      rw [step, ih m]
      by_cases hn : n ≤ m
      · rw [if_pos hn, if_pos (by omega : n + 1 ≤ m + 1)]
        simp only [Option.some.injEq, Prod.mk.injEq]
        refine ⟨?_, by omega⟩
        simp only [List.range_succ_eq_map, List.map_cons, List.map_map]
        congr 1
        · congr 1
          simp
        · refine List.map_congr_left ?_
          intro j _
          simp only [Function.comp]
          congr 1
          simp only [Int.ofNat_eq_natCast]
          push_cast
          omega
      · rw [if_neg hn, if_neg (by omega : ¬ n + 1 ≤ m + 1)]

/-- Destructing a successful elemRepeat. -/
theorem elemRepeat_some {sd : Int} {str : String} {n sp : Nat}
    {ls : List Line} {sp' : Nat}
    (h : elemRepeat sd str n sp = some (ls, sp')) :
    n ≤ sp ∧ sp' = sp - n ∧
      ls = (List.range n).map fun j =>
        Line.mk (sd - (sp : Int) + Int.ofNat j) str := by
  rw [elemRepeat_eq] at h
  by_cases hn : n ≤ sp
  · rw [if_pos hn] at h
    simp only [Option.some.injEq, Prod.mk.injEq] at h
    exact ⟨hn, h.2.symm, h.1.symm⟩
  · rw [if_neg hn] at h
    cases h

theorem stackWalkF_zero (g : IRGS) (fc sd : Int) (fuel i : Nat)
    (fpi : Option FPIEnt) : stackWalkF g fc sd (fuel + 1) 0 i fpi = some [] :=
  rfl

theorem stackWalkF_max (g : IRGS) (fc sd : Int) (fuel sp i : Nat)
    (fpi : Option FPIEnt) (h : g.curFunc.maxStackCells ≤ i) :
    stackWalkF g fc sd (fuel + 1) (sp + 1) i fpi = none := by
  cases fpi <;> simp [stackWalkF, h]

theorem stackWalkF_cell_none (g : IRGS) (fc sd : Int) (fuel sp i : Nat)
    (h : ¬ g.curFunc.maxStackCells ≤ i) :
    stackWalkF g fc sd (fuel + 1) (sp + 1) i none =
      Option.map
        (fun rest => Line.mk (sd - ((sp + 1 : Nat) : Int)) (cellText g i) :: rest)
        (stackWalkF g fc sd fuel sp (i + 1) none) := by
  simp only [stackWalkF, if_neg h]
  cases stackWalkF g fc sd fuel sp (i + 1) none <;> rfl

theorem stackWalkF_cell_nofire (g : IRGS) (fc sd : Int) (fuel sp i : Nat)
    (f : FPIEnt) (h : ¬ g.curFunc.maxStackCells ≤ i)
    (hf : ¬ ((sp + 1 : Nat) : Int) + fc = f.fpOff) :
    stackWalkF g fc sd (fuel + 1) (sp + 1) i (some f) =
      Option.map
        (fun rest => Line.mk (sd - ((sp + 1 : Nat) : Int)) (cellText g i) :: rest)
        (stackWalkF g fc sd fuel sp (i + 1) (some f)) := by
  simp only [stackWalkF, if_neg h, if_neg hf]
  cases stackWalkF g fc sd fuel sp (i + 1) (some f) <;> rfl

theorem stackWalkF_region_step (g : IRGS) (fc sd : Int) (fuel sp i : Nat)
    (f : FPIEnt) (lbl : String) (ls : List Line) (sp' : Nat)
    (h : ¬ g.curFunc.maxStackCells ≤ i)
    (hf : ((sp + 1 : Nat) : Int) + fc = f.fpOff)
    (hl : regionLabel g f = some lbl)
    (hrep : elemRepeat sd lbl kNumActRecCells (sp + 1) = some (ls, sp')) :
    stackWalkF g fc sd (fuel + 1) (sp + 1) i (some f) =
      Option.map (fun rest => ls ++ rest)
        (stackWalkF g fc sd fuel sp' (i + kNumActRecCells)
          (fpiParent g.curFunc f)) := by
  simp only [stackWalkF, if_neg h, if_pos hf, hl, hrep]
  cases stackWalkF g fc sd fuel sp' (i + kNumActRecCells) (fpiParent g.curFunc f) <;>
    rfl

theorem stackWalkF_region_nolabel (g : IRGS) (fc sd : Int) (fuel sp i : Nat)
    (f : FPIEnt) (h : ¬ g.curFunc.maxStackCells ≤ i)
    (hf : ((sp + 1 : Nat) : Int) + fc = f.fpOff)
    (hl : regionLabel g f = none) :
    stackWalkF g fc sd (fuel + 1) (sp + 1) i (some f) = none := by
  simp only [stackWalkF, if_neg h, if_pos hf, hl]

theorem stackWalkF_region_norep (g : IRGS) (fc sd : Int) (fuel sp i : Nat)
    (f : FPIEnt) (lbl : String) (h : ¬ g.curFunc.maxStackCells ≤ i)
    (hf : ((sp + 1 : Nat) : Int) + fc = f.fpOff)
    (hl : regionLabel g f = some lbl)
    (hrep : elemRepeat sd lbl kNumActRecCells (sp + 1) = none) :
    stackWalkF g fc sd (fuel + 1) (sp + 1) i (some f) = none := by
  simp only [stackWalkF, if_neg h, if_pos hf, hl, hrep]

/-- The fuel of stackWalkF is irrelevant as long as it dominates the walk
counter: every loop iteration strictly decreases the counter. -/
theorem stackWalkF_irrel (g : IRGS) (fc sd : Int) :
    ∀ fuel₁ fuel₂ sp i fpi, sp < fuel₁ → sp < fuel₂ →
      stackWalkF g fc sd fuel₁ sp i fpi = stackWalkF g fc sd fuel₂ sp i fpi := by
  intro fuel₁
  induction fuel₁ with
  | zero => intro fuel₂ sp i fpi h1 h2; omega
  | succ fuel₁ ih =>
    intro fuel₂ sp i fpi h1 h2
    cases fuel₂ with
    | zero => omega
    | succ fuel₂ =>
      cases sp with
      | zero => rfl
      | succ sp =>
        by_cases hmax : g.curFunc.maxStackCells ≤ i
        · rw [stackWalkF_max g fc sd fuel₁ sp i fpi hmax,
            stackWalkF_max g fc sd fuel₂ sp i fpi hmax]
        · cases fpi with
          | none =>
            rw [stackWalkF_cell_none g fc sd fuel₁ sp i hmax,
              stackWalkF_cell_none g fc sd fuel₂ sp i hmax,
              ih fuel₂ sp (i + 1) none (by omega) (by omega)]
          | some f =>
            by_cases hfire : ((sp + 1 : Nat) : Int) + fc = f.fpOff
            · cases hl : regionLabel g f with
              | none =>
                rw [stackWalkF_region_nolabel g fc sd fuel₁ sp i f hmax hfire hl,
                  stackWalkF_region_nolabel g fc sd fuel₂ sp i f hmax hfire hl]
              | some lbl =>
                cases hrep : elemRepeat sd lbl kNumActRecCells (sp + 1) with
                | none =>
                  rw [stackWalkF_region_norep g fc sd fuel₁ sp i f lbl hmax hfire hl
                      hrep,
                    stackWalkF_region_norep g fc sd fuel₂ sp i f lbl hmax hfire hl
                      hrep]
                | some p =>
                  obtain ⟨ls, sp'⟩ := p
                  obtain ⟨hn, hsp', -⟩ := elemRepeat_some hrep
                  have hk : kNumActRecCells = 3 := rfl
                  rw [hk] at hn hsp'
                  rw [stackWalkF_region_step g fc sd fuel₁ sp i f lbl ls sp' hmax
                      hfire hl hrep,
                    stackWalkF_region_step g fc sd fuel₂ sp i f lbl ls sp' hmax
                      hfire hl hrep,
                    ih fuel₂ sp' (i + kNumActRecCells) (fpiParent g.curFunc f)
                      (by omega) (by omega)]
            · rw [stackWalkF_cell_nofire g fc sd fuel₁ sp i f hmax hfire,
                stackWalkF_cell_nofire g fc sd fuel₂ sp i f hmax hfire,
                ih fuel₂ sp (i + 1) (some f) (by omega) (by omega)]

/-- Any dominating fuel computes the stack walk. -/
theorem stackWalkF_eq_walk (g : IRGS) (fc sd : Int) (fuel sp i : Nat)
    (fpi : Option FPIEnt) (h : sp < fuel) :
    stackWalkF g fc sd fuel sp i fpi = stackWalk g fc sd sp i fpi :=
  stackWalkF_irrel g fc sd fuel (sp + 1) sp i fpi h (Nat.lt_succ_self sp)

theorem stackWalk_zero (g : IRGS) (fc sd : Int) (i : Nat)
    (fpi : Option FPIEnt) : stackWalk g fc sd 0 i fpi = some [] :=
  rfl

theorem stackWalk_max (g : IRGS) (fc sd : Int) (sp i : Nat)
    (fpi : Option FPIEnt) (h : g.curFunc.maxStackCells ≤ i) :
    stackWalk g fc sd (sp + 1) i fpi = none :=
  stackWalkF_max g fc sd (sp + 1) sp i fpi h

theorem stackWalk_cell_none (g : IRGS) (fc sd : Int) (sp i : Nat)
    (h : ¬ g.curFunc.maxStackCells ≤ i) :
    stackWalk g fc sd (sp + 1) i none =
      Option.map
        (fun rest => Line.mk (sd - ((sp + 1 : Nat) : Int)) (cellText g i) :: rest)
        (stackWalk g fc sd sp (i + 1) none) := by
  rw [stackWalk, stackWalkF_cell_none g fc sd (sp + 1) sp i h,
    stackWalkF_eq_walk g fc sd (sp + 1) sp (i + 1) none (Nat.lt_succ_self sp)]

theorem stackWalk_cell_nofire (g : IRGS) (fc sd : Int) (sp i : Nat) (f : FPIEnt)
    (h : ¬ g.curFunc.maxStackCells ≤ i)
    (hf : ¬ ((sp + 1 : Nat) : Int) + fc = f.fpOff) :
    stackWalk g fc sd (sp + 1) i (some f) =
      Option.map
        (fun rest => Line.mk (sd - ((sp + 1 : Nat) : Int)) (cellText g i) :: rest)
        (stackWalk g fc sd sp (i + 1) (some f)) := by
  rw [stackWalk, stackWalkF_cell_nofire g fc sd (sp + 1) sp i f h hf,
    stackWalkF_eq_walk g fc sd (sp + 1) sp (i + 1) (some f) (Nat.lt_succ_self sp)]

theorem stackWalk_region (g : IRGS) (fc sd : Int) (sp i : Nat) (f : FPIEnt)
    (lbl : String) (h : ¬ g.curFunc.maxStackCells ≤ i)
    (hf : ((sp + 1 : Nat) : Int) + fc = f.fpOff)
    (hl : regionLabel g f = some lbl) (hw : kNumActRecCells ≤ sp + 1) :
    stackWalk g fc sd (sp + 1) i (some f) =
      Option.map
        (fun rest =>
          ((List.range kNumActRecCells).map fun j =>
            Line.mk (sd - ((sp + 1 : Nat) : Int) + Int.ofNat j) lbl) ++ rest)
        (stackWalk g fc sd (sp + 1 - kNumActRecCells) (i + kNumActRecCells)
          (fpiParent g.curFunc f)) := by
  have hrep : elemRepeat sd lbl kNumActRecCells (sp + 1) =
      some (((List.range kNumActRecCells).map fun j =>
        Line.mk (sd - ((sp + 1 : Nat) : Int) + Int.ofNat j) lbl),
        sp + 1 - kNumActRecCells) := by
    rw [elemRepeat_eq, if_pos hw]
  rw [stackWalk, stackWalkF_region_step g fc sd (sp + 1) sp i f lbl _ _ h hf hl
      hrep,
    stackWalkF_eq_walk g fc sd (sp + 1) (sp + 1 - kNumActRecCells)
      (i + kNumActRecCells) (fpiParent g.curFunc f)
      (by have hk : kNumActRecCells = 3 := rfl; omega)]

theorem stackWalk_region_underflow (g : IRGS) (fc sd : Int) (sp i : Nat)
    (f : FPIEnt) (lbl : String) (h : ¬ g.curFunc.maxStackCells ≤ i)
    (hf : ((sp + 1 : Nat) : Int) + fc = f.fpOff)
    (hl : regionLabel g f = some lbl) (hw : sp + 1 < kNumActRecCells) :
    stackWalk g fc sd (sp + 1) i (some f) = none := by
  have hrep : elemRepeat sd lbl kNumActRecCells (sp + 1) = none := by
    rw [elemRepeat_eq, if_neg (by omega)]
  exact stackWalkF_region_norep g fc sd (sp + 1) sp i f lbl h hf hl hrep

/-- With no region under consideration the walk coincides with the
region-free renderer: once a parentless region has been consumed no
region check can succeed on the remaining cells. -/
theorem stackWalk_none_eq (g : IRGS) (fc sd : Int) :
    ∀ sp i, stackWalk g fc sd sp i none = walkNone g sd sp i := by
  intro sp
  induction sp with
  | zero => intro i; rfl
  | succ sp ih =>
    intro i
    by_cases hmax : g.curFunc.maxStackCells ≤ i
    · rw [stackWalk_max g fc sd sp i none hmax]
      simp [walkNone, hmax]
    · rw [stackWalk_cell_none g fc sd sp i hmax, ih (i + 1)]
      simp only [walkNone, if_neg hmax]
      cases walkNone g sd sp (i + 1) <;> rfl

/-- Every successful stack walk entered with counter sp at top-relative
index i on a consistent depth emits exactly sp lines whose printed
indices are the top-relative cell offsets i, i+1, ... in order. -/
theorem stackWalkF_idx (g : IRGS) (fc sd : Int) :
    ∀ (fuel sp i : Nat) (fpi : Option FPIEnt) (ls : List Line),
      sp < fuel → ((sp : Int) + (i : Int) = sd) →
      stackWalkF g fc sd fuel sp i fpi = some ls →
      ls.map Line.idx = (List.range' i sp).map Int.ofNat := by
  intro fuel
  induction fuel with
  | zero => intro sp i fpi ls h1 _ _; omega
  | succ fuel ih =>
    intro sp i fpi ls h1 hsd hw
    cases sp with
    | zero =>
      rw [stackWalkF_zero] at hw
      cases hw
      simp [List.range']
    | succ sp =>
      by_cases hmax : g.curFunc.maxStackCells ≤ i
      · rw [stackWalkF_max g fc sd fuel sp i fpi hmax] at hw
        cases hw
      · have hhead : sd - ((sp + 1 : Nat) : Int) = Int.ofNat i := by
          simp only [Int.ofNat_eq_natCast]
          push_cast at hsd ⊢
          omega
        have hstep : ((sp : Nat) : Int) + ((i + 1 : Nat) : Int) = sd := by
          push_cast at hsd ⊢
          omega
        cases fpi with
        | none =>
          rw [stackWalkF_cell_none g fc sd fuel sp i hmax] at hw
          cases hrec : stackWalkF g fc sd fuel sp (i + 1) none with
          | none => rw [hrec] at hw; cases hw
          | some rest =>
            rw [hrec] at hw
            cases hw
            have htail := ih sp (i + 1) none rest (by omega) hstep hrec
            simp only [List.map_cons, htail, hhead, List.range'_succ,
              List.map_cons]
        | some f =>
          by_cases hfire : ((sp + 1 : Nat) : Int) + fc = f.fpOff
          · cases hl : regionLabel g f with
            | none =>
              rw [stackWalkF_region_nolabel g fc sd fuel sp i f hmax hfire hl]
                at hw
              cases hw
            | some lbl =>
              cases hrep : elemRepeat sd lbl kNumActRecCells (sp + 1) with
              | none =>
                rw [stackWalkF_region_norep g fc sd fuel sp i f lbl hmax hfire hl
                    hrep] at hw
                cases hw
              | some p =>
                obtain ⟨els, sp'⟩ := p
                obtain ⟨hn, hsp', hels⟩ := elemRepeat_some hrep
                have hk : kNumActRecCells = 3 := rfl
                rw [stackWalkF_region_step g fc sd fuel sp i f lbl els sp' hmax
                    hfire hl hrep] at hw
                cases hrec : stackWalkF g fc sd fuel sp' (i + kNumActRecCells)
                    (fpiParent g.curFunc f) with
                | none => rw [hrec] at hw; cases hw
                | some rest =>
                  rw [hrec] at hw
                  cases hw
                  have htail := ih sp' (i + kNumActRecCells)
                    (fpiParent g.curFunc f) rest
                    (by rw [hk] at hn hsp'; omega)
                    (by rw [hk] at hn hsp' ⊢; push_cast at hsd ⊢; omega) hrec
                  have hsplit : List.range' i (sp + 1) =
                      List.range' i kNumActRecCells ++
                        List.range' (i + kNumActRecCells) sp' := by
                    have happ := List.range'_append i kNumActRecCells sp' 1
                    rw [one_mul] at happ
                    have harith : sp + 1 = sp' + kNumActRecCells := by
                      rw [hk] at hn hsp' ⊢
                      omega
                    rw [harith]
                    exact happ.symm
                  have hreg : els.map Line.idx =
                      (List.range' i kNumActRecCells).map Int.ofNat := by
                    rw [hels, List.map_map, List.range'_eq_map_range,
                      List.map_map]
                    refine List.map_congr_left ?_
                    intro j _
                    simp only [Function.comp, Int.ofNat_eq_natCast]
                    push_cast at hsd ⊢
                    omega
                  rw [List.map_append, hreg, htail, hsplit, List.map_append]
          · rw [stackWalkF_cell_nofire g fc sd fuel sp i f hmax hfire] at hw
            cases hrec : stackWalkF g fc sd fuel sp (i + 1) (some f) with
            | none => rw [hrec] at hw; cases hw
            | some rest =>
              rw [hrec] at hw
              cases hw
              have htail := ih sp (i + 1) (some f) rest (by omega) hstep hrec
              simp only [List.map_cons, htail, hhead, List.range'_succ,
                List.map_cons]

/-- The index characterization lifted to the fuel-free walk. -/
theorem stackWalk_idx (g : IRGS) (fc sd : Int) (sp i : Nat)
    (fpi : Option FPIEnt) (ls : List Line) (hsd : (sp : Int) + (i : Int) = sd)
    (hw : stackWalk g fc sd sp i fpi = some ls) :
    ls.map Line.idx = (List.range' i sp).map Int.ofNat :=
  stackWalkF_idx g fc sd (sp + 1) sp i fpi ls (Nat.lt_succ_self sp) hsd hw

/-- Unfolding of the renderer into its guard and its stack walk. -/
theorem showIRGS_eq (g : IRGS) :
    showIRGS g =
      if stackDepthOf g < 0 then none
      else
        match stackWalk g (frameCellsOf g) (stackDepthOf g) (stackDepthOf g).toNat
            0 (g.curFunc.findFPI g.bcOff) with
        | none => none
        | some st => some (st, localsLines g) :=
  rfl

/-- Every successful snapshot prints the stack indices 0, 1, ... from the
top of the stack downward. -/
theorem showIRGS_some_idx (g : IRGS) (st loc : List Line)
    (h : showIRGS g = some (st, loc)) :
    st.map Line.idx = (List.range (stackDepthOf g).toNat).map Int.ofNat := by
  rw [showIRGS_eq] at h
  by_cases hneg : stackDepthOf g < 0
  · rw [if_pos hneg] at h
    cases h
  · rw [if_neg hneg] at h
    cases hw : stackWalk g (frameCellsOf g) (stackDepthOf g)
        (stackDepthOf g).toNat 0 (g.curFunc.findFPI g.bcOff) with
    | none => rw [hw] at h; cases h
    | some st' =>
      rw [hw] at h
      simp only [Option.some.injEq, Prod.mk.injEq] at h
      obtain ⟨rfl, rfl⟩ := h
      rw [List.range_eq_range']
      exact stackWalk_idx g (frameCellsOf g) (stackDepthOf g)
        (stackDepthOf g).toNat 0 (g.curFunc.findFPI g.bcOff) st'
        (by push_cast; omega) hw

/-- Strict subtyping reduces to inequality below a known supertype. -/
theorem ty_lt_of_le {p k : Ty} (h : p.le k = true) : Ty.lt p k = (p != k) := by
  simp [Ty.lt, h]

/-! The claims. -/

/-- C1 (amended): every rendered stack line is indexed by the raw
top-relative offset of its cell, so the displayed numbering reads
top-down 0, 1, 2, ... rather than the claimed bottom-up
stackDepth − offset. -/
theorem show_stack_indices_top_relative (g : IRGS) (st loc : List Line)
    (h : showIRGS g = some (st, loc)) :
    st.map Line.idx = (List.range (stackDepthOf g).toNat).map Int.ofNat :=
  showIRGS_some_idx g st loc h

/-- C1 counterexample: a three-cell stack with no call-setup regions
renders printed indices 0, 1, 2 from top to bottom, not the 2, 1, 0 the
claim demands. -/
theorem show_stack_indices_counterexample :
    (showIRGS envPlain).map (fun p => p.1.map Line.idx) = some [0, 1, 2] ∧
    ¬ ([0, 1, 2] : List Int) = [2, 1, 0] := by
  exact ⟨by decide, by decide⟩

/-- C1 witness: the amended claim evaluated on the three-cell state. -/
theorem show_stack_indices_witness :
    showIRGS envPlain = some (outPlainStack, outPlainLocals) ∧
    outPlainStack.map Line.idx =
      (List.range (stackDepthOf envPlain).toNat).map Int.ofNat :=
  ⟨by decide,
   show_stack_indices_top_relative envPlain outPlainStack outPlainLocals
     (by decide)⟩

/-- C2: construction emits exactly the define-frame-pointer definition
followed by the define-stack-pointer definition recording the initial
stack-pointer offset and taking the frame-pointer definition (id 0) as
input, and leaves the cursor stack containing exactly the context source
location. -/
theorem irgs_ctor_bootstrap (ctx : TransContext) :
    (mkIRGS ctx).irb.instrs =
      [Instr.defFP, Instr.defSP ctx.initSpOffset 0] ∧
    (mkIRGS ctx).bcStateStack = [ctx.srcKey] :=
  ⟨rfl, rfl⟩

/-- C3 (amended): at each step of the walk the region check fires if and
only if the current walk counter — the remaining cell count, equal to
stackDepth minus the top-relative offset, not the top-relative offset
itself — plus the frame-cell adjustment equals the frame-relative offset
of the region currently considered; a fired region continues against its
parent, a non-fired step renders the cell and keeps the region, and with
no region under consideration no check fires. -/
theorem checkFpi_offset_condition (g : IRGS) (fc sd : Int) (sp i : Nat)
    (f : FPIEnt) (hmax : i < g.curFunc.maxStackCells) :
    (∀ lbl : String, ((sp + 1 : Nat) : Int) + fc = f.fpOff →
      regionLabel g f = some lbl → kNumActRecCells ≤ sp + 1 →
      stackWalk g fc sd (sp + 1) i (some f) =
        Option.map (fun rest =>
          ((List.range kNumActRecCells).map fun j =>
            Line.mk (sd - ((sp + 1 : Nat) : Int) + Int.ofNat j) lbl) ++ rest)
          (stackWalk g fc sd (sp + 1 - kNumActRecCells) (i + kNumActRecCells)
            (fpiParent g.curFunc f))) ∧
    (¬ ((sp + 1 : Nat) : Int) + fc = f.fpOff →
      stackWalk g fc sd (sp + 1) i (some f) =
        Option.map
          (fun rest => Line.mk (sd - ((sp + 1 : Nat) : Int)) (cellText g i) :: rest)
          (stackWalk g fc sd sp (i + 1) (some f))) ∧
    stackWalk g fc sd (sp + 1) i none =
      Option.map
        (fun rest => Line.mk (sd - ((sp + 1 : Nat) : Int)) (cellText g i) :: rest)
        (stackWalk g fc sd sp (i + 1) none) :=
  ⟨fun lbl hf hl hw =>
      stackWalk_region g fc sd sp i f lbl (Nat.not_le.mpr hmax) hf hl hw,
   fun hf => stackWalk_cell_nofire g fc sd sp i f (Nat.not_le.mpr hmax) hf,
   stackWalk_cell_none g fc sd sp i (Nat.not_le.mpr hmax)⟩

/-- C3 counterexample: with stack depth 3, adjustment 0 and an active
region at frame-relative offset 3, the snapshot renders three region
lines (the first at top-relative offset 0), yet no examined top-relative
offset o below 3 satisfies o + 0 = 3 — the claimed firing rule predicts
no region line at all. -/
theorem checkFpi_offset_counterexample :
    (showIRGS envRegion).map (fun p => p.1.map Line.text) =
      some [lblStr, lblStr, lblStr] ∧
    lblStr ≠ cellText envRegion 0 ∧
    (∀ o : Nat, o < 3 → ¬ (Int.ofNat o + 0 = fpiAt3.fpOff)) :=
  ⟨by decide, by decide, by decide⟩

/-- C3 witness: the amended firing rule evaluated on the nested-region
state, walk counter 8, frame-cell adjustment 0, region offset 8. -/
theorem checkFpi_offset_witness :
    ((0 : Nat) < envNested.curFunc.maxStackCells) ∧
    stackWalk envNested 0 8 (7 + 1) 0 (some innerFpi) =
      Option.map (fun rest =>
        ((List.range kNumActRecCells).map fun j =>
          Line.mk ((8 : Int) - ((7 + 1 : Nat) : Int) + Int.ofNat j) lblStr) ++ rest)
        (stackWalk envNested 0 8 (7 + 1 - kNumActRecCells) (0 + kNumActRecCells)
          (fpiParent envNested.curFunc innerFpi)) :=
  ⟨by decide,
   (checkFpi_offset_condition envNested 0 8 7 0 innerFpi (by decide)).1 lblStr
     (by decide) (by decide) (by decide)⟩

/-- C4: a fired region renders exactly kNumActRecCells lines with the
identical label, advances the walk by that fixed width, and continues
region resolution against the parent of the consumed region; with no
region under consideration the walk coincides with the region-free
renderer, so after a parentless region no region check ever succeeds. -/
theorem fpi_region_fixed_width (g : IRGS) (fc sd : Int) (sp i : Nat)
    (f : FPIEnt) (lbl : String) (hmax : i < g.curFunc.maxStackCells)
    (hf : ((sp + 1 : Nat) : Int) + fc = f.fpOff)
    (hl : regionLabel g f = some lbl) (hw : kNumActRecCells ≤ sp + 1) :
    stackWalk g fc sd (sp + 1) i (some f) =
      Option.map (fun rest =>
        ((List.range kNumActRecCells).map fun j =>
          Line.mk (sd - ((sp + 1 : Nat) : Int) + Int.ofNat j) lbl) ++ rest)
        (stackWalk g fc sd (sp + 1 - kNumActRecCells) (i + kNumActRecCells)
          (fpiParent g.curFunc f)) ∧
    (∀ sp2 i2, stackWalk g fc sd sp2 i2 none = walkNone g sd sp2 i2) :=
  ⟨stackWalk_region g fc sd sp i f lbl (Nat.not_le.mpr hmax) hf hl hw,
   fun sp2 i2 => stackWalk_none_eq g fc sd sp2 i2⟩

/-- C4 witness: the nested-region state — the inner region fires at
counter 8, hands over to its parent, and the region-free tail renders the
last two cells. -/
theorem fpi_region_fixed_width_witness :
    ((0 : Nat) < envNested.curFunc.maxStackCells) ∧
    ((7 + 1 : Nat) : Int) + 0 = innerFpi.fpOff ∧
    regionLabel envNested innerFpi = some lblStr ∧
    kNumActRecCells ≤ 7 + 1 ∧
    stackWalk envNested 0 8 (7 + 1) 0 (some innerFpi) =
      Option.map (fun rest =>
        ((List.range kNumActRecCells).map fun j =>
          Line.mk ((8 : Int) - ((7 + 1 : Nat) : Int) + Int.ofNat j) lblStr) ++ rest)
        (stackWalk envNested 0 8 (7 + 1 - kNumActRecCells) (0 + kNumActRecCells)
          (fpiParent envNested.curFunc innerFpi)) ∧
    stackWalk envNested 0 8 2 6 none = walkNone envNested 8 2 6 :=
  ⟨by decide, by decide, by decide, by decide,
   (fpi_region_fixed_width envNested 0 8 7 0 innerFpi lblStr (by decide)
     (by decide) (by decide) (by decide)).1,
   (fpi_region_fixed_width envNested 0 8 7 0 innerFpi lblStr (by decide)
     (by decide) (by decide) (by decide)).2 2 6⟩

/-- C5: a non-region cell renders as unknown when the known type is the
maximally generic stack-element type, else as the known value, else as
the known type; and, assuming the predicted type is a subtype of the
known type, the predict suffix appears exactly when the two differ. -/
theorem stack_cell_text_rules (g : IRGS) (i : Nat)
    (hsub : (g.predictedStackType i).le (g.irb.stackType i) = true) :
    cellText g i =
      (if g.irb.stackType i = Ty.stkElem then "unknown"
       else
         match g.irb.stackValue i with
         | some v => v.instStr
         | none => (g.irb.stackType i).descr) ++
      (if g.predictedStackType i ≠ g.irb.stackType i then
        " (predict: " ++ (g.predictedStackType i).descr ++ ")"
       else "") := by
  unfold cellText
  dsimp only
  rw [ty_lt_of_le hsub]
  by_cases hne : g.predictedStackType i = g.irb.stackType i
  · simp [hne, str_append_nil]
  · simp [hne, String.append_assoc]

/-- C5 witness: a cell with known type Cell, no known value and
prediction Int renders the type text with the predict suffix. -/
theorem stack_cell_text_rules_witness :
    (envPlain.predictedStackType 1).le (envPlain.irb.stackType 1) = true ∧
    cellText envPlain 1 =
      (if envPlain.irb.stackType 1 = Ty.stkElem then "unknown"
       else
         match envPlain.irb.stackValue 1 with
         | some v => v.instStr
         | none => (envPlain.irb.stackType 1).descr) ++
      (if envPlain.predictedStackType 1 ≠ envPlain.irb.stackType 1 then
        " (predict: " ++ (envPlain.predictedStackType 1).descr ++ ")"
       else "") :=
  ⟨by decide, stack_cell_text_rules envPlain 1 (by decide)⟩

/-- C6: the frame-cell adjustment is zero exactly in a resumable context
and the locals-in-frame count otherwise, the stack depth is the
synchronized level minus that adjustment, and a negative depth makes the
renderer abort before emitting anything. -/
theorem stack_depth_nonneg_assert (g : IRGS) (h : stackDepthOf g < 0) :
    frameCellsOf g =
      (if g.resumed then 0 else (g.curFunc.numSlotsInFrame : Int)) ∧
    stackDepthOf g = g.irb.syncedSpLevel - frameCellsOf g ∧
    showIRGS g = none := by
  refine ⟨rfl, rfl, ?_⟩
  rw [showIRGS_eq, if_pos h]

/-- C6 witness: synchronized level 3, five frame slots, not resumed — the
depth is −2 and the snapshot is refused. -/
theorem stack_depth_nonneg_assert_witness :
    stackDepthOf envNeg < 0 ∧ showIRGS envNeg = none :=
  ⟨by decide, (stack_depth_nonneg_assert envNeg (by decide)).2.2⟩

/-- C7: when a fired region is wider than the remaining cell count the
walk aborts and returns nothing at all; and every snapshot that does
succeed carries exactly stackDepth stack lines, so rendering either
completes fully or emits no output. -/
theorem render_underflow_aborts (g : IRGS) (fc sd : Int) (sp i : Nat)
    (f : FPIEnt) (lbl : String) (hmax : i < g.curFunc.maxStackCells)
    (hf : ((sp + 1 : Nat) : Int) + fc = f.fpOff)
    (hl : regionLabel g f = some lbl) (hw : sp + 1 < kNumActRecCells) :
    stackWalk g fc sd (sp + 1) i (some f) = none ∧
    ∀ (g' : IRGS) (st loc : List Line), showIRGS g' = some (st, loc) →
      st.length = (stackDepthOf g').toNat := by
  constructor
  · exact stackWalk_region_underflow g fc sd sp i f lbl (Nat.not_le.mpr hmax)
      hf hl hw
  · intro g' st loc h
    have hidx := showIRGS_some_idx g' st loc h
    have hlen := congrArg List.length hidx
    simpa using hlen

/-- C7 witness: a depth-2 stack whose region needs 3 cells aborts, and
the successful three-cell snapshot has exactly three stack lines. -/
theorem render_underflow_aborts_witness :
    stackWalk envUnder 0 2 (1 + 1) 0 (some fpiAt2) = none ∧
    outPlainStack.length = (stackDepthOf envPlain).toNat :=
  ⟨(render_underflow_aborts envUnder 0 2 1 0 fpiAt2 lblStr (by decide)
     (by decide) (by decide) (by decide)).1,
   (render_underflow_aborts envUnder 0 2 1 0 fpiAt2 lblStr (by decide)
     (by decide) (by decide) (by decide)).2 envPlain outPlainStack
     outPlainLocals (by decide)⟩

/-- C8: the predict-inner suffix of a local appears exactly when the
known local type is below the boxed-cell type and the predicted inner
type is not the bottom type. -/
theorem local_inner_predict_suffix (g : IRGS) (i : Nat) :
    localText g i = localBase g i ++
      (if Ty.le (localTyOf g i) Ty.boxedCell = true ∧
          g.irb.predictedInnerType i ≠ Ty.bot then
        " (predict inner: " ++ (g.irb.predictedInnerType i).descr ++ ")"
       else "") := by
  unfold localText localBase
  dsimp only
  by_cases hb : Ty.le (localTyOf g i) Ty.boxedCell = true
  · by_cases hp : g.irb.predictedInnerType i = Ty.bot
    · by_cases hl : Ty.lt (g.irb.predictedLocalType i) (localTyOf g i) = true
      · simp [hb, hp, hl, str_append_nil, ← String.append_assoc]
      · simp [hb, hp, hl, str_append_nil]
    · by_cases hl : Ty.lt (g.irb.predictedLocalType i) (localTyOf g i) = true
      · simp [hb, hp, hl, ← String.append_assoc]
      · simp [hb, hp, hl, ← String.append_assoc]
  · by_cases hl : Ty.lt (g.irb.predictedLocalType i) (localTyOf g i) = true
    · simp [hb, hl, str_append_nil, ← String.append_assoc]
    · simp [hb, hl, str_append_nil]

/-- C9 (amended): the label of a rendered call-setup region is the fixed
prefix followed by the pretty-printed bytecode range of the push
instruction with its one trailing newline stripped — not the bare
pretty-printed range alone. -/
theorem region_label_prefixed (g : IRGS) (f : FPIEnt)
    (h : (g.curUnit.prettyPrintRange f.fpushOff
      (f.fpushOff + g.curUnit.instrLenAt f.fpushOff)).data.getLast? =
        some '\n') :
    regionLabel g f = some (String.mk ("ActRec from ".data ++
      (g.curUnit.prettyPrintRange f.fpushOff
        (f.fpushOff + g.curUnit.instrLenAt f.fpushOff)).data.dropLast)) := by
  unfold regionLabel
  dsimp only
  have hne : (g.curUnit.prettyPrintRange f.fpushOff
      (f.fpushOff + g.curUnit.instrLenAt f.fpushOff)).data ≠ [] := by
    intro h0
    rw [h0] at h
    cases h
  rw [String.data_append, List.getLast?_append_of_ne_nil _ hne, if_pos h,
    List.dropLast_append_of_ne_nil _ hne]

/-- C9 counterexample: the rendered label carries the fixed prefix, so it
differs from the bare stripped pretty-printed range the claim demands. -/
theorem region_label_counterexample :
    regionLabel envPlain fpiAt3 = some lblStr ∧
    lblStr ≠ String.mk ("FPushFuncD zork\n".data.dropLast) :=
  ⟨by decide, by decide⟩

/-- C9 witness: the amended label equation evaluated on the concrete
pretty printer. -/
theorem region_label_witness :
    (envPlain.curUnit.prettyPrintRange fpiAt3.fpushOff
      (fpiAt3.fpushOff + envPlain.curUnit.instrLenAt fpiAt3.fpushOff)).data.getLast? =
        some '\n' ∧
    regionLabel envPlain fpiAt3 = some (String.mk ("ActRec from ".data ++
      (envPlain.curUnit.prettyPrintRange fpiAt3.fpushOff
        (fpiAt3.fpushOff + envPlain.curUnit.instrLenAt fpiAt3.fpushOff)).data.dropLast)) :=
  ⟨by decide, region_label_prefixed envPlain fpiAt3 (by decide)⟩

/-- C10: with cells still to render, an iteration whose top-relative
index has reached the maximum stack cell count aborts the walk before
examining or rendering anything at that index. -/
theorem max_stack_cells_assert (g : IRGS) (fc sd : Int) (sp i : Nat)
    (fpi : Option FPIEnt) (hsp : 0 < sp) (hi : g.curFunc.maxStackCells ≤ i) :
    stackWalk g fc sd sp i fpi = none := by
  cases sp with
  | zero => omega
  | succ sp => exact stackWalk_max g fc sd sp i fpi hi

/-- C10 witness: index 10 with maximum 10 aborts with one cell left. -/
theorem max_stack_cells_assert_witness :
    (0 : Nat) < 1 ∧ envPlain.curFunc.maxStackCells ≤ 10 ∧
    stackWalk envPlain 0 3 1 10 none = none :=
  ⟨by decide, by decide,
   max_stack_cells_assert envPlain 0 3 1 10 none (by decide) (by decide)⟩

end IRGenState
